import Mathlib

/-!
# Verification of the ScratchIt widget core (src/js/ScratchIt.js)

A shallow embedding of the pointer-to-paint pipeline and the reveal
detection of the ScratchIt scratch-off widget, together with theorems
settling the specification claims.

Conventions of the embedding:

* JS numbers that stay exact in the program (coordinates, distances,
  thresholds) are modelled as rationals `ℚ`; pixel coordinates enqueued
  on the paint queue are integers `ℤ` (the source rounds them with
  `Math.round`).
* `Math.round x` is `⌊x + 1/2⌋` (JS rounds half-way cases toward +∞).
* `Math.sqrt` is eliminated exactly: for `m ≥ 0` and `d2 = dx²+dy²` the
  source test `Math.sqrt d2 > m` is `m < 0 ∨ m*m < d2`, and
  `Math.ceil (Math.sqrt d2 / m)` is the least `n : ℕ` with
  `d2 ≤ (n*m)²` (see `numSegments_sq` for the bridge to `⌈dist/m⌉`).
* The special JS float values reachable here (`NaN` from coercing a
  non-numeric threshold, `Infinity` from division by zero) are modelled
  by the `JSNum` type with the IEEE comparison rules (every comparison
  with NaN is false).
* The browser DOM and canvas are external collaborators: events carry
  the device coordinates the handlers would read from them, and the
  pixel effect of `drawImage` with `destination-out` compositing (not
  code of this repository) is modelled from the spec in `eraseAt`.
-/

/-- A point already rounded to integer pixel coordinates, as stored on
the paint queue (source: the objects pushed in `addPoint`). -/
structure Point where
  x : ℤ
  y : ℤ
deriving DecidableEq

/-- A point with exact (unrounded) coordinates, as produced by the
coordinate arithmetic of the pointer handlers. -/
structure PointQ where
  x : ℚ
  y : ℚ
deriving DecidableEq

/-- JS `Math.round`: round to the nearest integer, half-way cases toward
positive infinity. -/
def jsRound (q : ℚ) : ℤ := ⌊q + 1/2⌋

/-- Round both coordinates of a point (source: `Math.round(point.x)`,
`Math.round(point.y)` in `addPoint`). -/
def jsRoundPt (p : PointQ) : Point := ⟨jsRound p.x, jsRound p.y⟩

/-- Squared Euclidean distance between two queue points. -/
def sqDistZ (a b : Point) : ℤ := (a.x - b.x) ^ 2 + (a.y - b.y) ^ 2

/-- Squared distance between the stored `lastPoint` and a new raw point
(source: `dx = lastPoint.x - point.x; dy = lastPoint.y - point.y;
dist = Math.sqrt(dx*dx + dy*dy)` — `d2Of` is `dist²`). -/
def d2Of (L : Point) (p : PointQ) : ℚ :=
  ((L.x : ℚ) - p.x) * ((L.x : ℚ) - p.x) + ((L.y : ℚ) - p.y) * ((L.y : ℚ) - p.y)

/-- `numSegments d2 m` is `Math.ceil(Math.sqrt d2 / m)` for `m > 0`:
the least `n : ℕ` with `n*m ≥ √d2`, i.e. with `d2 ≤ (n*m)²`
(source: `numSegments = Math.ceil(dist / minPointDist)`; see
`numSegments_sq` for the bridge to `⌈dist/m⌉` when `dist` is rational).
For `m ≤ 0` the source never reaches this computation with a
terminating loop, and we return `0` (an empty interpolation loop).
Well-definedness (`numSegments_exists`): some multiple of `m > 0` has
square at least `d2`. -/
def numSegments_exists (d2 m : ℚ) (hm : 0 < m) :
    ∃ n : ℕ, d2 ≤ ((n : ℚ) * m) ^ 2 := by
  rcases le_or_lt d2 0 with h | h
  · exact ⟨0, by simpa using h⟩
  · refine ⟨(⌈d2 / (m * m)⌉).toNat + 1, ?_⟩
    have hmm : (0 : ℚ) < m * m := mul_pos hm hm
    have htn : (⌈d2 / (m * m)⌉ : ℚ) ≤ ((⌈d2 / (m * m)⌉).toNat : ℚ) := by
      exact_mod_cast Int.self_le_toNat ⌈d2 / (m * m)⌉
    have h2 : d2 / (m * m) ≤ ((⌈d2 / (m * m)⌉).toNat + 1 : ℚ) :=
      le_trans (Int.le_ceil _) (by linarith)
    have h3 : d2 ≤ ((⌈d2 / (m * m)⌉).toNat + 1 : ℚ) * (m * m) := by
      rw [div_le_iff₀ hmm] at h2
      exact_mod_cast h2
    have h4 : (1 : ℚ) ≤ ((⌈d2 / (m * m)⌉).toNat + 1 : ℚ) := by
      have h5 : (0 : ℚ) ≤ ((⌈d2 / (m * m)⌉).toNat : ℚ) := by positivity
      linarith
    push_cast
    nlinarith [h3, h4, hmm]

def numSegments (d2 m : ℚ) : ℕ :=
  if hm : 0 < m then Nat.find (numSegments_exists d2 m hm) else 0

/-- The interior points pushed by the interpolation loop of `addPoint`
(source: `dx = dx / numSegments; dy = dy / numSegments;
for(i = 1; i < numSegments; i++){ paintQueue.push({x: Math.round(point.x + i*dx),
y: Math.round(point.y + i*dy)}) }`), where `L` is `lastPoint` and `p`
is the incoming `point`. -/
def interiorPoints (L p : PointQ) (n : ℕ) : List Point :=
  (List.range (n - 1)).map fun k : ℕ =>
    jsRoundPt ⟨p.x + (((k : ℕ) : ℚ) + 1) * ((L.x - p.x) / (n : ℚ)),
               p.y + (((k : ℕ) : ℚ) + 1) * ((L.y - p.y) / (n : ℚ))⟩

/-- The interior points in the order the specification asserts them:
"in order from `lastPoint` toward `point`".  This definition follows the
spec's words, not the source; it exists to be compared with the order
the program actually enqueues (`interiorPoints`). -/
def specOrderInteriors (L : Point) (p : PointQ) (n : ℕ) : List Point :=
  (List.range (n - 1)).map fun k : ℕ =>
    jsRoundPt ⟨(L.x : ℚ) + (((k : ℕ) : ℚ) + 1) * ((p.x - (L.x : ℚ)) / (n : ℚ)),
               (L.y : ℚ) + (((k : ℕ) : ℚ) + 1) * ((p.y - (L.y : ℚ)) / (n : ℚ))⟩

/-- The state touched by `addPoint`: the paint queue, the last enqueued
point, and `minPointDist`. -/
structure AddSt where
  paintQueue : List Point
  lastPoint : Option Point
  minPointDist : ℚ
deriving DecidableEq

/-- Source `addPoint(point, tween)` (ScratchIt.js lines 199–231).  When
`tween` is truthy and a `lastPoint` exists, and the distance between
them exceeds `minPointDist` (`m < 0 ∨ m*m < d2` is exactly
`Math.sqrt d2 > m`), the interior interpolation points are pushed;
afterwards the rounded `point` itself is always pushed and becomes the
new `lastPoint`. -/
def addPoint (s : AddSt) (p : PointQ) (tween : Bool) : AddSt :=
  let interp : List Point :=
    if tween then
      match s.lastPoint with
      | some L =>
        if s.minPointDist < 0 ∨ s.minPointDist * s.minPointDist < d2Of L p then
          interiorPoints ⟨(L.x : ℚ), (L.y : ℚ)⟩ p (numSegments (d2Of L p) s.minPointDist)
        else []
      | none => []
    else []
  let q : Point := jsRoundPt p
  { paintQueue := s.paintQueue ++ interp ++ [q]
    lastPoint := some q
    minPointDist := s.minPointDist }

/-- Source `minPointDist = brushCanvas.width / 2` (ScratchIt.js line 111). -/
def minPointDistOf (brushWidth : ℕ) : ℚ := (brushWidth : ℚ) / 2

/-- The JS float values reachable in the reveal/threshold arithmetic:
an ordinary (exactly representable) number, `NaN` (from coercing a
non-numeric threshold with `*1`), and `+Infinity` (from dividing a
positive number by zero). -/
inductive JSNum where
  | nan : JSNum
  | inf : JSNum
  | fin : ℚ → JSNum
deriving DecidableEq

/-- JS `<` on the values above: any comparison involving NaN is false. -/
def jsLt : JSNum → JSNum → Bool
  | .nan, _ => false
  | _, .nan => false
  | .inf, _ => false
  | .fin _, .inf => true
  | .fin a, .fin b => decide (a < b)

/-- JS `>`: `a > b` is `b < a` (NaN again makes every comparison false). -/
def jsGt (a b : JSNum) : Bool := jsLt b a

/-- JS `>=`: false whenever either side is NaN. -/
def jsGe : JSNum → JSNum → Bool
  | .nan, _ => false
  | _, .nan => false
  | .inf, _ => true
  | .fin _, .inf => false
  | .fin a, .fin b => decide (b ≤ a)

/-- JS division of two nonnegative integers: `0/0` is NaN, `a/0` with
`a > 0` is `+Infinity`, otherwise the exact rational quotient. -/
def jsDivNat (a b : ℕ) : JSNum :=
  if b = 0 then (if a = 0 then .nan else .inf) else .fin ((a : ℚ) / (b : ℚ))

/-- JS multiplication by the positive literal 100. -/
def jsMul100 : JSNum → JSNum
  | .nan => .nan
  | .inf => .inf
  | .fin q => .fin (q * 100)

/-- One RGBA pixel of an `ImageData` buffer (one byte per channel). -/
structure Pixel where
  r : ℕ
  g : ℕ
  b : ℕ
  a : ℕ
deriving DecidableEq

/-- The flat `pixels.data` byte array of an `ImageData`: row-major RGBA,
four bytes per pixel. -/
def flattenPixels : List Pixel → List ℕ
  | [] => []
  | px :: rest => px.r :: px.g :: px.b :: px.a :: flattenPixels rest

/-- Source loop of `testRevealed`:
`for(i = 0; i < pixels.data.length; i += 4){ if(pixels.data[i+3] <= 128) numVisible++; }`
— count every fourth byte (the alpha channel) that is at most 128.
A trailing fragment shorter than four bytes contributes nothing (in JS
the out-of-bounds read yields `undefined`, and `undefined <= 128` is
false); real `ImageData` buffers are always a multiple of four. -/
def countVisible : List ℕ → ℕ
  | _ :: _ :: _ :: a :: rest => (if a ≤ 128 then 1 else 0) + countVisible rest
  | _ => 0

/-- The reveal state owned by `testRevealed`: the one-shot flag and the
number of times the user callback has been invoked. -/
structure RevealSt where
  isRevealed : Bool
  callbackCount : ℕ
deriving DecidableEq

/-- Source `testRevealed` (ScratchIt.js lines 315–334): no-op once
`isRevealed` is set; otherwise count the pixels with alpha ≤ 128 over
the overlay's `ImageData`, and when
`numVisible / totalPixels * 100 >= revealThreshold` invoke the callback
(modelled by incrementing `callbackCount`) and set `isRevealed`. -/
def testRevealed (threshold : JSNum) (w h : ℕ) (data : List ℕ) (s : RevealSt) : RevealSt :=
  if s.isRevealed then s
  else if jsGe (jsMul100 (jsDivNat (countVisible data) (w * h))) threshold then
    ⟨true, s.callbackCount + 1⟩
  else s

/-- The configuration retained by a successful construction. -/
structure ScratchConfig where
  revealThreshold : JSNum
deriving DecidableEq

/-- Source `construct` argument validation (ScratchIt.js lines 40–57).
The DOM test `isDomElement(el)` and the JS `typeof callback`
test are environment queries, so their boolean outcomes are taken as
arguments; `thresholdRaw` is the already-coerced `arguments[4]*1`
(NaN when the argument was not numeric), and when no threshold argument
was supplied the source uses `0`.  The three validations throw in
source order: parent element, callback, threshold range.  (The source's
first message ends with a stray double-quote character, elided here.) -/
def construct (elIsDomElement callbackIsFunction thresholdProvided : Bool)
    (thresholdRaw : JSNum) : Except String ScratchConfig :=
  let threshold : JSNum := if thresholdProvided then thresholdRaw else .fin 0
  if !elIsDomElement then
    .error "ScratchIt() requires parent element to be a valid DOM Element."
  else if !callbackIsFunction then
    .error "ScratchIt() requires callback to be a function"
  else if jsLt threshold (.fin 0) || jsGt threshold (.fin 100) then
    .error "ScratchIt() requires threshold to be between 0-100"
  else
    .ok ⟨threshold⟩

/-- The brush raster: dimensions and an alpha mask (alpha of the brush
pixel at column `i`, row `j`). -/
structure Brush where
  w : ℕ
  h : ℕ
  alpha : ℕ → ℕ → ℕ

/-- Modelled from the spec: the pixel effect of
`overlayCtx.drawImage(brushCanvas, point.x - brushCanvas.width/2, point.y - brushCanvas.height/2)`
under `globalCompositeOperation = 'destination-out'` (the draw call in
`draw`, ScratchIt.js line 146).  The compositing itself happens inside
the browser canvas, not in repository code; per the spec's Erase Engine
contract, wherever the brush has opacity the overlay's alpha is reduced
correspondingly (`newAlpha = oldAlpha * (255 - brushAlpha) / 255`),
the brush is placed with its top-left at
`(point.x - brushW/2, point.y - brushH/2)` (taken with floor when the
half-width is fractional), and strokes beyond the overlay edges are
silently clipped.  Only the alpha bytes (flat index ≡ 3 mod 4) change. -/
def eraseByte (brushW brushH : ℕ) (brushAlpha : ℕ → ℕ → ℕ) (w : ℕ)
    (p : Point) (j a : ℕ) : ℕ :=
  let tx : ℤ := p.x - (brushW : ℤ) / 2
  let ty : ℤ := p.y - (brushH : ℤ) / 2
  if j % 4 = 3 then
    let pix := j / 4
    let px : ℤ := ((pix % w : ℕ) : ℤ)
    let py : ℤ := ((pix / w : ℕ) : ℤ)
    if tx ≤ px ∧ px < tx + brushW ∧ ty ≤ py ∧ py < ty + brushH then
      a * (255 - min 255 (brushAlpha (px - tx).toNat (py - ty).toNat)) / 255
    else a
  else a

/-- Apply a byte transformation to every byte of a flat buffer, passing
the flat index along. -/
def mapBytesFrom (f : ℕ → ℕ → ℕ) : ℕ → List ℕ → List ℕ
  | _, [] => []
  | j, a :: rest => f j a :: mapBytesFrom f (j + 1) rest

/-- The full overlay update for one brush stamp. -/
def eraseAt (brushW brushH : ℕ) (brushAlpha : ℕ → ℕ → ℕ) (w : ℕ)
    (data : List ℕ) (p : Point) : List ℕ :=
  mapBytesFrom (eraseByte brushW brushH brushAlpha w p) 0 data

/-- The module-level mutable state of a ScratchIt instance (the closure
variables declared at ScratchIt.js lines 8–26), after both images have
loaded and the widget is wired up.  The overlay raster is its
`ImageData` byte list plus dimensions; the reveal callback is modelled
by `callbackCount`. -/
structure MachineState where
  isPointerDown : Bool
  pointerOrigin : PointQ
  offsetOrigin : PointQ
  scale : ℚ
  paintQueue : List Point
  lastPoint : Option Point
  minPointDist : ℚ
  isRevealed : Bool
  callbackCount : ℕ
  revealThreshold : JSNum
  overlayW : ℕ
  overlayH : ℕ
  overlayData : List ℕ
  brush : Brush

/-- The external stimuli the widget reacts to.  Pointer events carry the
coordinates the handlers would read from the DOM event
(`getPointFromEvent` for the viewport point; `getOffsetPointFromEvent`
for the overlay-local point recorded on pointer-down).  `frame` is one
`requestAnimationFrame` callback of `draw`.  (Resize and its debounce
timer are not modelled; no claim depends on them.) -/
inductive Event where
  | pointerDown (raw off : PointQ) : Event
  | pointerMove (raw : PointQ) : Event
  | pointerUp : Event
  | frame : Event

/-- Run `addPoint` against the machine's queue/lastPoint/minPointDist. -/
def applyAddPoint (s : MachineState) (p : PointQ) (tween : Bool) : MachineState :=
  let a := addPoint ⟨s.paintQueue, s.lastPoint, s.minPointDist⟩ p tween
  { s with paintQueue := a.paintQueue, lastPoint := a.lastPoint }

/-- The drain loop of `draw` (ScratchIt.js lines 143–147): shift every
queued point in FIFO order and stamp the brush at it. -/
def drainQueue (b : Brush) (w : ℕ) (data : List ℕ) (q : List Point) : List ℕ :=
  q.foldl (fun d pt => eraseAt b.w b.h b.alpha w d pt) data

/-- One event-handler step of the widget:
* `pointerDown` (ScratchIt.js lines 253–266): record the origins, set
  `isPointerDown`, and `addPoint({offsetOrigin * scale})` without tween;
* `pointerMove` (lines 275–284): ignored unless the pointer is down,
  otherwise `addPoint((offsetOrigin + (position - pointerOrigin)) * scale, true)`;
* `pointerUp` (lines 293–304): ignored unless the pointer is down,
  otherwise clear the session (origins, `lastPoint`) and run
  `testRevealed` synchronously — note the paint queue is NOT drained;
* `frame` (lines 143–151): drain the whole paint queue into the overlay. -/
def step (s : MachineState) : Event → MachineState
  | .pointerDown raw off =>
    applyAddPoint
      { s with isPointerDown := true, pointerOrigin := raw, offsetOrigin := off }
      ⟨off.x * s.scale, off.y * s.scale⟩ false
  | .pointerMove raw =>
    if s.isPointerDown then
      applyAddPoint s
        ⟨(s.offsetOrigin.x + (raw.x - s.pointerOrigin.x)) * s.scale,
         (s.offsetOrigin.y + (raw.y - s.pointerOrigin.y)) * s.scale⟩ true
    else s
  | .pointerUp =>
    if s.isPointerDown then
      let r := testRevealed s.revealThreshold s.overlayW s.overlayH s.overlayData
        ⟨s.isRevealed, s.callbackCount⟩
      { s with isPointerDown := false, lastPoint := none,
               pointerOrigin := ⟨0, 0⟩, offsetOrigin := ⟨0, 0⟩,
               isRevealed := r.isRevealed, callbackCount := r.callbackCount }
    else s
  | .frame =>
    { s with paintQueue := [],
             overlayData := drainQueue s.brush s.overlayW s.overlayData s.paintQueue }

/-- Process a sequence of events in order. -/
def run (s : MachineState) (es : List Event) : MachineState := es.foldl step s

/-- The state right after `onCanvasLoaded` wired the widget up: no
active pointer session, empty queue, `minPointDist = brushWidth / 2`,
reveal flag clear, callback not yet invoked.  `scale` is whatever the
initial `onResize` computed from the container layout. -/
def initState (t : JSNum) (w h : ℕ) (data : List ℕ) (b : Brush) (scale : ℚ) :
    MachineState :=
  { isPointerDown := false
    pointerOrigin := ⟨0, 0⟩
    offsetOrigin := ⟨0, 0⟩
    scale := scale
    paintQueue := []
    lastPoint := none
    minPointDist := minPointDistOf b.w
    isRevealed := false
    callbackCount := 0
    revealThreshold := t
    overlayW := w
    overlayH := h
    overlayData := data
    brush := b }

/-- A fully opaque square brush. -/
def opaqueBrush (n : ℕ) : Brush := ⟨n, n, fun _ _ => 255⟩

/-- Concrete widget for the pointer-up/drain ordering analysis: a 1×1
fully opaque overlay, a 2×2 opaque brush, threshold 50. -/
def c8Init : MachineState := initState (.fin 50) 1 1 [0, 0, 0, 255] (opaqueBrush 2) 1

/-- A pointer-down in the middle of that overlay. -/
def c8Down : Event := .pointerDown ⟨1, 1⟩ ⟨1, 1⟩

/-- Concrete widget for the spacing analysis: brush of width 10, so
`minPointDist = 5`. -/
def c2Init : MachineState := initState (.fin 50) 1 1 [0, 0, 0, 255] (opaqueBrush 10) 1

/-- The `addPoint` state used by the brush-width-10 interpolation
scenario: one previous point at the origin. -/
def c6St : AddSt := ⟨[⟨0, 0⟩], some ⟨0, 0⟩, minPointDistOf 10⟩

/-! ## Helper lemmas -/

theorem numSegments_eq_find (d2 m : ℚ) (hm : 0 < m) :
    numSegments d2 m = Nat.find (numSegments_exists d2 m hm) := by
  unfold numSegments
  rw [dif_pos hm]

theorem numSegments_le (d2 m : ℚ) (hm : 0 < m) :
    d2 ≤ ((numSegments d2 m : ℚ) * m) ^ 2 := by
  rw [numSegments_eq_find d2 m hm]
  exact Nat.find_spec (numSegments_exists d2 m hm)

theorem numSegments_min (d2 m : ℚ) (hm : 0 < m) (k : ℕ)
    (hk : k < numSegments d2 m) : ¬ d2 ≤ ((k : ℚ) * m) ^ 2 := by
  rw [numSegments_eq_find d2 m hm] at hk
  exact Nat.find_min (numSegments_exists d2 m hm) hk

theorem numSegments_two_le (d2 m : ℚ) (hm : 0 < m) (hd : m * m < d2) :
    2 ≤ numSegments d2 m := by
  by_contra hlt
  push_neg at hlt
  have h1 := numSegments_le d2 m hm
  set n := numSegments d2 m with hn
  interval_cases n <;> push_cast at h1 <;> nlinarith

/-- Bridge to the source's `Math.ceil(dist / minPointDist)`: when the
distance is an exactly representable `q ≥ 0`, the least-`n`
characterisation coincides with `⌈q / m⌉`. -/
theorem numSegments_sq (q m : ℚ) (hq : 0 ≤ q) (hm : 0 < m) :
    numSegments (q * q) m = (⌈q / m⌉).toNat := by
  rw [numSegments_eq_find (q * q) m hm, Nat.find_eq_iff]
  constructor
  · have h1 : q / m ≤ ((⌈q / m⌉).toNat : ℚ) :=
      le_trans (Int.le_ceil _) (by exact_mod_cast Int.self_le_toNat _)
    have h2 : q ≤ ((⌈q / m⌉).toNat : ℚ) * m := by
      rw [div_le_iff₀ hm] at h1; linarith
    nlinarith [h2, hq]
  · intro k hk hcon
    have hkm : 0 ≤ (k : ℚ) * m := by positivity
    have h3 : q ≤ (k : ℚ) * m := by nlinarith [hcon, hq, hkm]
    have h4 : q / m ≤ ((k : ℤ) : ℚ) := by
      rw [div_le_iff₀ hm]; push_cast; linarith
    have h5 : ⌈q / m⌉ ≤ (k : ℤ) := Int.ceil_le.mpr h4
    omega

theorem jsRound_lb (q : ℚ) : q - 1/2 < (jsRound q : ℚ) := by
  have := Int.lt_floor_add_one (q + 1/2)
  unfold jsRound
  linarith

theorem jsRound_ub (q : ℚ) : (jsRound q : ℚ) ≤ q + 1/2 := by
  unfold jsRound
  exact_mod_cast Int.floor_le (q + 1/2)

/-- Rounding two points that differ exactly by `(d, e)` with
`d² + e² ≤ m²` yields integer points at squared distance at most
`(m + 2)²` (slack 2 > 2·(1/2)·√2 absorbs the rounding of both ends). -/
theorem round_gap_bound (m d e x y : ℚ) (hm : 0 < m) (hDel : d ^ 2 + e ^ 2 ≤ m ^ 2) :
    ((jsRound (x + d) : ℚ) - (jsRound x : ℚ)) ^ 2
      + ((jsRound (y + e) : ℚ) - (jsRound y : ℚ)) ^ 2 ≤ (m + 2) ^ 2 := by
  have h1 := jsRound_lb x
  have h2 := jsRound_ub x
  have h3 := jsRound_lb (x + d)
  have h4 := jsRound_ub (x + d)
  have h5 := jsRound_lb y
  have h6 := jsRound_ub y
  have h7 := jsRound_lb (y + e)
  have h8 := jsRound_ub (y + e)
  have hdu : d ≤ m := by nlinarith [sq_nonneg (d - m), sq_nonneg e]
  have hdl : -m ≤ d := by nlinarith [sq_nonneg (d + m), sq_nonneg e]
  have heu : e ≤ m := by nlinarith [sq_nonneg (e - m), sq_nonneg d]
  have hel : -m ≤ e := by nlinarith [sq_nonneg (e + m), sq_nonneg d]
  obtain ⟨u, hu⟩ : ∃ u : ℚ, (jsRound (x + d) : ℚ) - (jsRound x : ℚ) = u := ⟨_, rfl⟩
  obtain ⟨v, hv⟩ : ∃ v : ℚ, (jsRound (y + e) : ℚ) - (jsRound y : ℚ) = v := ⟨_, rfl⟩
  rw [hu, hv]
  have hu1 : u - d < 1 := by rw [← hu]; linarith
  have hu2 : -1 < u - d := by rw [← hu]; linarith
  have hv1 : v - e < 1 := by rw [← hv]; linarith
  have hv2 : -1 < v - e := by rw [← hv]; linarith
  clear hu hv h1 h2 h3 h4 h5 h6 h7 h8
  have hsqu : (u - d) ^ 2 ≤ 1 := by nlinarith [hu1, hu2]
  have hsqv : (v - e) ^ 2 ≤ 1 := by nlinarith [hv1, hv2]
  have hp1 : (0 : ℚ) ≤ (1 - (u - d)) * (m + d) := mul_nonneg (by linarith) (by linarith)
  have hp2 : (0 : ℚ) ≤ (1 + (u - d)) * (m - d) := mul_nonneg (by linarith) (by linarith)
  have hp3 : (0 : ℚ) ≤ (1 - (v - e)) * (m + e) := mul_nonneg (by linarith) (by linarith)
  have hp4 : (0 : ℚ) ≤ (1 + (v - e)) * (m - e) := mul_nonneg (by linarith) (by linarith)
  have hgu : u ^ 2 ≤ d ^ 2 + 2 * m + 1 := by nlinarith [hsqu, hp1, hp2]
  have hgv : v ^ 2 ≤ e ^ 2 + 2 * m + 1 := by nlinarith [hsqv, hp3, hp4]
  clear hsqu hsqv hp1 hp2 hp3 hp4 hu1 hu2 hv1 hv2 hdu hdl heu hel
  linarith [hgu, hgv, hDel, hm]

theorem interiorPoints_length (L p : PointQ) (n : ℕ) :
    (interiorPoints L p n).length = n - 1 := by
  rw [interiorPoints, List.length_map, List.length_range]

theorem interiorPoints_get (L p : PointQ) (n k : ℕ)
    (hk : k < (interiorPoints L p n).length) :
    (interiorPoints L p n)[k] =
      jsRoundPt ⟨p.x + ((k : ℚ) + 1) * ((L.x - p.x) / (n : ℚ)),
                 p.y + ((k : ℚ) + 1) * ((L.y - p.y) / (n : ℚ))⟩ := by
  simp only [interiorPoints, List.getElem_map, List.getElem_range]

theorem specOrderInteriors_length (L : Point) (p : PointQ) (n : ℕ) :
    (specOrderInteriors L p n).length = n - 1 := by
  rw [specOrderInteriors, List.length_map, List.length_range]

/-- The interior points the program enqueues are exactly the interior
points in the spec's stated order, reversed. -/
theorem interiorPoints_eq_reverse (L : Point) (p : PointQ) (n : ℕ) :
    interiorPoints ⟨(L.x : ℚ), (L.y : ℚ)⟩ p n = (specOrderInteriors L p n).reverse := by
  apply List.ext_getElem
  · rw [interiorPoints_length, List.length_reverse, specOrderInteriors_length]
  · intro i h1 h2
    have hi : i < n - 1 := by
      rw [interiorPoints_length] at h1
      exact h1
    have hn2 : 2 ≤ n := by omega
    have hnne : (n : ℚ) ≠ 0 := by
      have h0 : 0 < n := by omega
      exact_mod_cast h0.ne'
    rw [List.getElem_reverse]
    simp only [interiorPoints, specOrderInteriors, List.getElem_map, List.getElem_range,
      List.length_map, List.length_range]
    have hcast : ((n - 1 - 1 - i : ℕ) : ℚ) = (n : ℚ) - 2 - (i : ℚ) := by
      have h3 : n - 1 - 1 - i + (i + 2) = n := by omega
      have h4 := congrArg (fun t : ℕ => ((t : ℕ) : ℚ)) h3
      push_cast at h4
      linarith
    rw [jsRoundPt, jsRoundPt, hcast]
    have hx : p.x + ((i : ℚ) + 1) * (((L.x : ℚ)) - p.x) / (n : ℚ) =
        (L.x : ℚ) + ((n : ℚ) - 2 - (i : ℚ) + 1) * ((p.x - (L.x : ℚ)) / (n : ℚ)) := by
      field_simp
      ring
    have hy : p.y + ((i : ℚ) + 1) * (((L.y : ℚ)) - p.y) / (n : ℚ) =
        (L.y : ℚ) + ((n : ℚ) - 2 - (i : ℚ) + 1) * ((p.y - (L.y : ℚ)) / (n : ℚ)) := by
      field_simp
      ring
    rw [mul_div_assoc] at hx hy
    rw [hx, hy]

theorem addPoint_guarded (s : AddSt) (L : Point) (p : PointQ)
    (hL : s.lastPoint = some L)
    (hguard : s.minPointDist < 0 ∨ s.minPointDist * s.minPointDist < d2Of L p) :
    addPoint s p true =
      ⟨s.paintQueue ++ interiorPoints ⟨(L.x : ℚ), (L.y : ℚ)⟩ p
          (numSegments (d2Of L p) s.minPointDist) ++ [jsRoundPt p],
       some (jsRoundPt p), s.minPointDist⟩ := by
  simp only [addPoint, hL, if_true]
  rw [if_pos hguard]

theorem countVisible_eq_filter (ps : List Pixel) :
    countVisible (flattenPixels ps) = (ps.filter fun px => px.a ≤ 128).length := by
  induction ps with
  | nil => rfl
  | cons px rest ih =>
    by_cases h : px.a ≤ 128
    · simp [flattenPixels, countVisible, List.filter_cons, h, ih]
      omega
    · simp [flattenPixels, countVisible, List.filter_cons, h, ih]

theorem testRevealed_cases (t : JSNum) (w h : ℕ) (d : List ℕ) (s : RevealSt) :
    testRevealed t w h d s = s ∨
      (s.isRevealed = false ∧ testRevealed t w h d s = ⟨true, s.callbackCount + 1⟩) := by
  unfold testRevealed
  by_cases h1 : s.isRevealed = true
  · simp [h1]
  · by_cases h2 : jsGe (jsMul100 (jsDivNat (countVisible d) (w * h))) t = true <;>
      simp [h1, h2]

theorem step_reveal_cases (s : MachineState) (e : Event) :
    ((step s e).isRevealed = s.isRevealed ∧ (step s e).callbackCount = s.callbackCount)
    ∨ (s.isRevealed = false ∧ (step s e).isRevealed = true
        ∧ (step s e).callbackCount = s.callbackCount + 1) := by
  cases e with
  | pointerDown raw off => left; simp [step, applyAddPoint]
  | pointerMove raw =>
    left
    by_cases h : s.isPointerDown = true <;> simp [step, h, applyAddPoint]
  | pointerUp =>
    by_cases h : s.isPointerDown = true
    · rcases testRevealed_cases s.revealThreshold s.overlayW s.overlayH s.overlayData
        ⟨s.isRevealed, s.callbackCount⟩ with heq | ⟨h0, heq⟩
      · left
        simp [step, h, heq]
      · right
        refine ⟨h0, ?_, ?_⟩ <;> simp [step, h, heq]
    · left; simp [step, h]
  | frame => left; simp [step]

theorem numSegments_val_225 : numSegments 225 5 = 3 := by
  rw [numSegments_eq_find 225 5 (by norm_num), Nat.find_eq_iff]
  constructor
  · norm_num
  · intro k hk
    interval_cases k <;> norm_num

theorem numSegments_val_2500 : numSegments 2500 5 = 10 := by
  rw [numSegments_eq_find 2500 5 (by norm_num), Nat.find_eq_iff]
  constructor
  · norm_num
  · intro k hk
    interval_cases k <;> norm_num

/-! ## Claim theorems -/

/-- C6: with a brush of pixel width 10 the source sets
`minPointDist = 10 / 2 = 5`; a tweened point at Euclidean distance 50
from `lastPoint` (here from `(0,0)` to `(30,40)`) makes `addPoint`
enqueue exactly 9 intermediate points followed by the final point
itself, which becomes the new `lastPoint`. -/
theorem brush10_dist50_nine_points :
    minPointDistOf 10 = 5
    ∧ (addPoint c6St ⟨30, 40⟩ true).paintQueue =
        [⟨0, 0⟩, ⟨27, 36⟩, ⟨24, 32⟩, ⟨21, 28⟩, ⟨18, 24⟩, ⟨15, 20⟩,
         ⟨12, 16⟩, ⟨9, 12⟩, ⟨6, 8⟩, ⟨3, 4⟩, ⟨30, 40⟩]
    ∧ (addPoint c6St ⟨30, 40⟩ true).paintQueue.length = 1 + 9 + 1
    ∧ (addPoint c6St ⟨30, 40⟩ true).lastPoint = some ⟨30, 40⟩ := by
  refine ⟨by norm_num [minPointDistOf], ?_, ?_, ?_⟩ <;>
    norm_num [addPoint, c6St, minPointDistOf, d2Of, numSegments_val_2500,
      interiorPoints, jsRoundPt, jsRound, List.range_succ]

/-- C1 counterexample: at `lastPoint = (0,0)`, `point = (15,0)`,
`minPointDist = 5` (distance 15, three sub-segments), the program
enqueues the interior points `(10,0), (5,0)` — starting next to `point`
and walking toward `lastPoint` — while the claim's asserted order "from
`lastPoint` toward `point`" would be `(5,0), (10,0)`.  The enqueued
queue is not the claimed one. -/
theorem addPoint_spec_order_cex :
    (addPoint ⟨[], some ⟨0, 0⟩, 5⟩ ⟨15, 0⟩ true).paintQueue
        = [⟨10, 0⟩, ⟨5, 0⟩, ⟨15, 0⟩]
    ∧ specOrderInteriors ⟨0, 0⟩ ⟨15, 0⟩ (numSegments (d2Of ⟨0, 0⟩ ⟨15, 0⟩) 5)
          ++ [jsRoundPt ⟨15, 0⟩]
        = [⟨5, 0⟩, ⟨10, 0⟩, ⟨15, 0⟩]
    ∧ (addPoint ⟨[], some ⟨0, 0⟩, 5⟩ ⟨15, 0⟩ true).paintQueue
        ≠ specOrderInteriors ⟨0, 0⟩ ⟨15, 0⟩ (numSegments (d2Of ⟨0, 0⟩ ⟨15, 0⟩) 5)
          ++ [jsRoundPt ⟨15, 0⟩] := by
  have h1 : (addPoint ⟨[], some ⟨0, 0⟩, 5⟩ ⟨15, 0⟩ true).paintQueue
      = [⟨10, 0⟩, ⟨5, 0⟩, ⟨15, 0⟩] := by
    norm_num [addPoint, d2Of, numSegments_val_225, interiorPoints, jsRoundPt,
      jsRound, List.range_succ]
  have h2 : specOrderInteriors ⟨0, 0⟩ ⟨15, 0⟩ (numSegments (d2Of ⟨0, 0⟩ ⟨15, 0⟩) 5)
        ++ [jsRoundPt ⟨15, 0⟩]
      = [⟨5, 0⟩, ⟨10, 0⟩, ⟨15, 0⟩] := by
    norm_num [specOrderInteriors, d2Of, numSegments_val_225, jsRoundPt,
      jsRound, List.range_succ]
  refine ⟨h1, h2, ?_⟩
  rw [h1, h2]
  decide

/-- C1 (amended): for a tweened `addPoint` whose distance to the
existing `lastPoint` exceeds `minPointDist > 0`, the segment is
subdivided into `numSegments = ⌈dist/minPointDist⌉` equal sub-segments
and the rounded interior points (excluding both endpoints) are appended
to the paint queue — in order from `point` toward `lastPoint`, i.e. the
REVERSE of the order the claim states; the final point itself is then
always enqueued and becomes the new `lastPoint`. -/
theorem addPoint_tween_interpolation (s : AddSt) (L : Point) (p : PointQ)
    (hL : s.lastPoint = some L) (_hm : 0 < s.minPointDist)
    (hd : s.minPointDist * s.minPointDist < d2Of L p) :
    (addPoint s p true).paintQueue
      = s.paintQueue
        ++ (specOrderInteriors L p (numSegments (d2Of L p) s.minPointDist)).reverse
        ++ [jsRoundPt p]
    ∧ (addPoint s p true).lastPoint = some (jsRoundPt p)
    ∧ (specOrderInteriors L p (numSegments (d2Of L p) s.minPointDist)).length
        = numSegments (d2Of L p) s.minPointDist - 1 := by
  have h := addPoint_guarded s L p hL (Or.inr hd)
  refine ⟨?_, ?_, specOrderInteriors_length L p _⟩
  · simp only [h]
    rw [interiorPoints_eq_reverse]
  · simp only [h]

/-- Witness for the amended C1 at `lastPoint = (0,0)`, `point = (30,40)`,
`minPointDist = 5`. -/
theorem addPoint_tween_interpolation_witness :
    (addPoint ⟨[], some ⟨0, 0⟩, 5⟩ ⟨30, 40⟩ true).paintQueue
      = (⟨[], some ⟨0, 0⟩, 5⟩ : AddSt).paintQueue
        ++ (specOrderInteriors ⟨0, 0⟩ ⟨30, 40⟩
              (numSegments (d2Of ⟨0, 0⟩ ⟨30, 40⟩) 5)).reverse
        ++ [jsRoundPt ⟨30, 40⟩]
    ∧ (addPoint ⟨[], some ⟨0, 0⟩, 5⟩ ⟨30, 40⟩ true).lastPoint
        = some (jsRoundPt ⟨30, 40⟩)
    ∧ (specOrderInteriors ⟨0, 0⟩ ⟨30, 40⟩
          (numSegments (d2Of ⟨0, 0⟩ ⟨30, 40⟩) 5)).length
        = numSegments (d2Of ⟨0, 0⟩ ⟨30, 40⟩) 5 - 1 :=
  addPoint_tween_interpolation ⟨[], some ⟨0, 0⟩, 5⟩ ⟨0, 0⟩ ⟨30, 40⟩ rfl
    (by norm_num) (by norm_num [d2Of])

/-- C2 counterexample: with brush width 10 (`minPointDist = 5`), a
pointer-down at the origin followed by a pointer-move to `(15,0)` makes
the widget enqueue `(0,0), (10,0), (5,0), (15,0)`.  The consecutively
enqueued pair `(5,0), (15,0)` is 10 apart — more than `minPointDist`
even with a slack of 2 (> √2, covering any integer rounding), so the
claimed spacing bound is not an invariant of the queue. -/
theorem queue_spacing_cex :
    c2Init.minPointDist = 5
    ∧ (run c2Init [.pointerDown ⟨0, 0⟩ ⟨0, 0⟩, .pointerMove ⟨15, 0⟩]).paintQueue
        = [⟨0, 0⟩, ⟨10, 0⟩, ⟨5, 0⟩, ⟨15, 0⟩]
    ∧ sqDistZ ⟨5, 0⟩ ⟨15, 0⟩ = 100
    ∧ ¬ ((sqDistZ ⟨5, 0⟩ ⟨15, 0⟩ : ℚ) ≤ (5 + 2) ^ 2) := by
  refine ⟨by norm_num [c2Init, initState, opaqueBrush, minPointDistOf], ?_,
    by norm_num [sqDistZ], ?_⟩
  · norm_num [run, c2Init, initState, opaqueBrush, minPointDistOf, step,
      applyAddPoint, addPoint, jsRoundPt, jsRound, d2Of, numSegments_val_225,
      interiorPoints, List.range_succ]
  · norm_num [sqDistZ]

/-- C2 (amended): within a single tweened `addPoint` call the
consecutively enqueued INTERIOR points are at most `minPointDist` apart
up to rounding (squared distance at most `(minPointDist + 2)²`); the
bound fails only at the seam pairs — between the previously enqueued
`lastPoint` and the first interior point, and between the last interior
point and the final point — where the gap can approach the whole
original distance (see the counterexample). -/
theorem interior_spacing_bound (L : Point) (p : PointQ) (m : ℚ) (hm : 0 < m)
    (hd : m * m < d2Of L p) (k : ℕ) (a b : Point)
    (ha : (interiorPoints ⟨(L.x : ℚ), (L.y : ℚ)⟩ p (numSegments (d2Of L p) m))[k]?
        = some a)
    (hb : (interiorPoints ⟨(L.x : ℚ), (L.y : ℚ)⟩ p (numSegments (d2Of L p) m))[k + 1]?
        = some b) :
    ((sqDistZ a b : ℤ) : ℚ) ≤ (m + 2) ^ 2 := by
  have hle := numSegments_le (d2Of L p) m hm
  have htwo := numSegments_two_le (d2Of L p) m hm hd
  obtain ⟨n, hn⟩ : ∃ nn : ℕ, numSegments (d2Of L p) m = nn := ⟨_, rfl⟩
  rw [hn] at ha hb hle htwo
  clear hn
  rw [List.getElem?_eq_some] at ha hb
  obtain ⟨hka, ha2⟩ := ha
  obtain ⟨hkb, hb2⟩ := hb
  rw [interiorPoints_get _ _ _ _ hka] at ha2
  rw [interiorPoints_get _ _ _ _ hkb] at hb2
  have hnpos : 0 < n := by omega
  have hnq : (0 : ℚ) < (n : ℚ) := by exact_mod_cast hnpos
  clear hka hkb htwo
  set dxq : ℚ := ((L.x : ℚ) - p.x) / (n : ℚ) with hdxq
  set dyq : ℚ := ((L.y : ℚ) - p.y) / (n : ℚ) with hdyq
  set x1 : ℚ := p.x + ((k : ℚ) + 1) * dxq with hx1
  set y1 : ℚ := p.y + ((k : ℚ) + 1) * dyq with hy1
  have hDel : dxq ^ 2 + dyq ^ 2 ≤ m ^ 2 := by
    have hsum : dxq ^ 2 + dyq ^ 2 = d2Of L p / (n : ℚ) ^ 2 := by
      rw [hdxq, hdyq, d2Of]
      field_simp
      ring
    rw [hsum, div_le_iff₀ (by positivity)]
    nlinarith [hle]
  have hargx : p.x + (((k + 1 : ℕ) : ℚ) + 1) * dxq = x1 + dxq := by
    rw [hx1]; push_cast; ring
  have hargy : p.y + (((k + 1 : ℕ) : ℚ) + 1) * dyq = y1 + dyq := by
    rw [hy1]; push_cast; ring
  rw [hargx, hargy] at hb2
  have hax : (a.x : ℚ) = (jsRound x1 : ℚ) := by rw [← ha2]; rfl
  have hay : (a.y : ℚ) = (jsRound y1 : ℚ) := by rw [← ha2]; rfl
  have hbx : (b.x : ℚ) = (jsRound (x1 + dxq) : ℚ) := by rw [← hb2]; rfl
  have hby : (b.y : ℚ) = (jsRound (y1 + dyq) : ℚ) := by rw [← hb2]; rfl
  rw [sqDistZ]
  push_cast
  rw [hax, hay, hbx, hby]
  nlinarith [round_gap_bound m dxq dyq x1 y1 hm hDel]

/-- Witness for the amended C2: the first two interior points of the
`(0,0) → (30,40)` interpolation with `minPointDist = 5` are at squared
distance 25 ≤ 49. -/
theorem interior_spacing_bound_witness :
    ((sqDistZ ⟨27, 36⟩ ⟨24, 32⟩ : ℤ) : ℚ) ≤ ((5 : ℚ) + 2) ^ 2 :=
  interior_spacing_bound ⟨0, 0⟩ ⟨30, 40⟩ 5 (by norm_num) (by norm_num [d2Of]) 0
    ⟨27, 36⟩ ⟨24, 32⟩
    (by norm_num [interiorPoints, d2Of, numSegments_val_2500, jsRoundPt, jsRound,
      List.range_succ])
    (by norm_num [interiorPoints, d2Of, numSegments_val_2500, jsRoundPt, jsRound,
      List.range_succ])

/-- C3: `testRevealed` classifies a pixel as visible exactly when its
alpha channel value is ≤ 128 (`countVisible` is the count of such
pixels), computes `erasedFraction = numVisible / totalPixels * 100`,
and — when not yet revealed and the overlay is nonempty — invokes the
callback (modelled by the counter) and sets the flag exactly when that
fraction reaches the threshold, leaving everything unchanged otherwise. -/
theorem testRevealed_correct (ps : List Pixel) (w h : ℕ) (q : ℚ) (s : RevealSt)
    (hrev : s.isRevealed = false) (hwh : 0 < w * h) :
    countVisible (flattenPixels ps) = (ps.filter fun px => px.a ≤ 128).length
    ∧ ((q ≤ (countVisible (flattenPixels ps) : ℚ) / ((w * h : ℕ) : ℚ) * 100) →
        testRevealed (.fin q) w h (flattenPixels ps) s = ⟨true, s.callbackCount + 1⟩)
    ∧ (¬ (q ≤ (countVisible (flattenPixels ps) : ℚ) / ((w * h : ℕ) : ℚ) * 100) →
        testRevealed (.fin q) w h (flattenPixels ps) s = s) := by
  have hne : w * h ≠ 0 := hwh.ne'
  have hcond : jsGe (jsMul100 (jsDivNat (countVisible (flattenPixels ps)) (w * h)))
        (.fin q)
      = decide (q ≤ (countVisible (flattenPixels ps) : ℚ) / ((w * h : ℕ) : ℚ) * 100) := by
    rw [jsDivNat, if_neg hne]
    rfl
  refine ⟨countVisible_eq_filter ps, ?_, ?_⟩ <;> intro hq <;>
    · unfold testRevealed
      rw [hrev, hcond]
      simp only [Bool.false_eq_true, if_false, decide_eq_true_eq]
      first
      | rw [if_pos hq]
      | rw [if_neg hq]

/-- Witness for C3: a single fully transparent pixel with threshold 50
fires the callback. -/
theorem testRevealed_correct_witness :
    countVisible (flattenPixels [⟨0, 0, 0, 0⟩])
        = (([⟨0, 0, 0, 0⟩] : List Pixel).filter fun px => px.a ≤ 128).length
    ∧ testRevealed (.fin 50) 1 1 (flattenPixels [⟨0, 0, 0, 0⟩]) ⟨false, 0⟩
        = ⟨true, 0 + 1⟩ := by
  have h := testRevealed_correct [⟨0, 0, 0, 0⟩] 1 1 50 ⟨false, 0⟩ rfl (by norm_num)
  refine ⟨h.1, ?_⟩
  apply h.2.1
  norm_num [countVisible, flattenPixels]

/-- C4: over any sequence of events, the reveal callback fires at most
once for the lifetime of the widget: once `isRevealed` is set the
reveal fields never change again; from a not-yet-revealed state the
callback count grows by at most one; and whenever the final state is
not revealed the callback was never invoked and the flag was never set
(it transitions at most once from false to true and never reverts). -/
theorem reveal_at_most_once (s : MachineState) (es : List Event) :
    (s.isRevealed = true →
      (run s es).isRevealed = true ∧ (run s es).callbackCount = s.callbackCount)
    ∧ (s.isRevealed = false → (run s es).callbackCount ≤ s.callbackCount + 1)
    ∧ ((run s es).isRevealed = false →
      (run s es).callbackCount = s.callbackCount ∧ s.isRevealed = false) := by
  induction es generalizing s with
  | nil => exact ⟨fun h => ⟨h, rfl⟩, fun _ => Nat.le_succ _, fun h => ⟨rfl, h⟩⟩
  | cons e tail ih =>
    have hrun : run s (e :: tail) = run (step s e) tail := rfl
    rw [hrun]
    rcases step_reveal_cases s e with ⟨h1, h2⟩ | ⟨h0, h1, h2⟩
    · refine ⟨?_, ?_, ?_⟩
      · intro h
        obtain ⟨ha, hb⟩ := (ih (step s e)).1 (h1.trans h)
        exact ⟨ha, by rw [hb, h2]⟩
      · intro h
        have h3 : (step s e).isPointerDown = (step s e).isPointerDown := rfl
        have h4 := (ih (step s e)).2.1 (h1.trans h)
        omega
      · intro h
        obtain ⟨ha, hb⟩ := (ih (step s e)).2.2 h
        exact ⟨by rw [ha, h2], by rw [← h1]; exact hb⟩
    · refine ⟨?_, ?_, ?_⟩
      · intro h
        rw [h] at h0
        cases h0
      · intro _
        obtain ⟨ha, hb⟩ := (ih (step s e)).1 h1
        omega
      · intro h
        obtain ⟨ha, hb⟩ := (ih (step s e)).1 h1
        rw [ha] at h
        cases h
/-- Witness for C4: two pointer-ups after the threshold is crossed still
yield a single callback invocation. -/
theorem reveal_at_most_once_witness :
    (run c8Init [c8Down, .frame, .pointerUp, .pointerUp]).callbackCount ≤ 1 :=
  (reveal_at_most_once c8Init [c8Down, .frame, .pointerUp, .pointerUp]).2.1 rfl

/-- C5: with threshold 100, if any pixel's alpha exceeds 128 then the
erased fraction is strictly below 100 and the reveal check is a no-op
(the callback does not fire). -/
theorem threshold100_requires_all_pixels (ps : List Pixel) (w h : ℕ) (s : RevealSt)
    (hlen : ps.length = w * h) (hwh : 0 < w * h)
    (hp : ∃ px ∈ ps, 128 < px.a) :
    ((countVisible (flattenPixels ps) : ℚ) / ((w * h : ℕ) : ℚ) * 100 < 100)
    ∧ testRevealed (.fin 100) w h (flattenPixels ps) s = s := by
  have hlt : countVisible (flattenPixels ps) < w * h := by
    rw [countVisible_eq_filter, ← hlen]
    obtain ⟨px, hmem, hgt⟩ := hp
    refine List.length_filter_lt_length_iff_exists.mpr ⟨px, hmem, ?_⟩
    simp only [decide_eq_true_eq]
    omega
  have hq0 : (0 : ℚ) < ((w * h : ℕ) : ℚ) := by exact_mod_cast hwh
  have hfrac : (countVisible (flattenPixels ps) : ℚ) / ((w * h : ℕ) : ℚ) * 100 < 100 := by
    have hc : (countVisible (flattenPixels ps) : ℚ) < ((w * h : ℕ) : ℚ) := by
      exact_mod_cast hlt
    rw [div_mul_eq_mul_div, div_lt_iff₀ hq0]
    nlinarith [hc, hq0]
  refine ⟨hfrac, ?_⟩
  by_cases hrev : s.isRevealed = true
  · unfold testRevealed
    rw [if_pos hrev]
  · have hrev2 : s.isRevealed = false := by
      cases hb : s.isRevealed
      · rfl
      · exact absurd hb hrev
    have hne : w * h ≠ 0 := hwh.ne'
    have hcond : jsGe (jsMul100 (jsDivNat (countVisible (flattenPixels ps)) (w * h)))
          (.fin 100)
        = decide ((100 : ℚ) ≤ (countVisible (flattenPixels ps) : ℚ) / ((w * h : ℕ) : ℚ) * 100) := by
      rw [jsDivNat, if_neg hne]
      rfl
    unfold testRevealed
    rw [hrev2, hcond]
    simp only [Bool.false_eq_true, if_false, decide_eq_true_eq]
    rw [if_neg (not_le.mpr hfrac)]

/-- Witness for C5: a 1×1 overlay whose single pixel has alpha 200 does
not fire at threshold 100. -/
theorem threshold100_requires_all_pixels_witness :
    ((countVisible (flattenPixels [⟨0, 0, 0, 200⟩]) : ℚ) / ((1 * 1 : ℕ) : ℚ) * 100 < 100)
    ∧ testRevealed (.fin 100) 1 1 (flattenPixels [⟨0, 0, 0, 200⟩]) ⟨false, 0⟩
        = ⟨false, 0⟩ :=
  threshold100_requires_all_pixels [⟨0, 0, 0, 200⟩] 1 1 ⟨false, 0⟩ rfl (by norm_num)
    ⟨⟨0, 0, 0, 200⟩, by norm_num, by norm_num⟩

/-- C7: construction throws — in source order: invalid parent element,
non-function callback, numeric threshold outside [0, 100] — whenever
any of those validations fails.  `construct` is a pure function of its
arguments evaluated once at construction time; an error is terminal. -/
theorem construct_validation_throws (elOk cbOk : Bool) (q : ℚ)
    (h : elOk = false ∨ cbOk = false ∨ q < 0 ∨ 100 < q) :
    ∃ msg, construct elOk cbOk true (.fin q) = .error msg := by
  cases elOk
  · exact ⟨_, rfl⟩
  · cases cbOk
    · exact ⟨_, rfl⟩
    · have hq : q < 0 ∨ 100 < q := by
        rcases h with h | h | h | h
        · cases h
        · cases h
        · exact Or.inl h
        · exact Or.inr h
      refine ⟨"ScratchIt() requires threshold to be between 0-100", ?_⟩
      unfold construct
      have hcond : (jsLt (JSNum.fin q) (.fin 0) || jsGt (JSNum.fin q) (.fin 100)) = true := by
        rcases hq with h2 | h2 <;>
          simp [jsLt, jsGt, h2]
      simp only [Bool.not_true, Bool.false_eq_true, if_false, if_true]
      rw [if_pos hcond]

/-- Witness for C7: threshold 150 is rejected. -/
theorem construct_validation_throws_witness :
    ∃ msg, construct true true true (.fin 150) = .error msg :=
  construct_validation_throws true true 150 (by norm_num)

/-- C8 counterexample: on a 1×1 opaque overlay with threshold 50, a
pointer-down enqueues one point; a pointer-up before any animation
frame runs the reveal scan while that point is still undrained — the
queue is untouched by the scan, which reads the un-erased overlay and
does not fire — whereas the same pointer-up after a frame (which drains
the queue and erases the pixel) fires the callback. -/
theorem pointerUp_scan_undrained_cex :
    (run c8Init [c8Down]).paintQueue = [⟨1, 1⟩]
    ∧ (run c8Init [c8Down, .pointerUp]).paintQueue = [⟨1, 1⟩]
    ∧ (run c8Init [c8Down, .pointerUp]).callbackCount = 0
    ∧ (run c8Init [c8Down, .frame, .pointerUp]).callbackCount = 1 := by
  refine ⟨?_, ?_, ?_, ?_⟩ <;>
    norm_num [run, c8Init, c8Down, initState, opaqueBrush, minPointDistOf, step,
      applyAddPoint, addPoint, jsRoundPt, jsRound, testRevealed, countVisible,
      jsDivNat, jsMul100, jsGe, drainQueue, eraseAt, mapBytesFrom, eraseByte]

/-- C8 (amended): the pointer-up reveal scan runs synchronously inside
the handler and reads the overlay exactly as it is at that moment: the
paint queue is left untouched (not drained first), the overlay bytes
are not modified, and the reveal outcome is `testRevealed` of the
current — possibly stale — overlay contents. -/
theorem pointerUp_scan_no_drain (s : MachineState) (h : s.isPointerDown = true) :
    (step s .pointerUp).paintQueue = s.paintQueue
    ∧ (step s .pointerUp).overlayData = s.overlayData
    ∧ (step s .pointerUp).isRevealed =
        (testRevealed s.revealThreshold s.overlayW s.overlayH s.overlayData
          ⟨s.isRevealed, s.callbackCount⟩).isRevealed
    ∧ (step s .pointerUp).callbackCount =
        (testRevealed s.revealThreshold s.overlayW s.overlayH s.overlayData
          ⟨s.isRevealed, s.callbackCount⟩).callbackCount := by
  refine ⟨?_, ?_, ?_, ?_⟩ <;> simp [step, h]

/-- Witness for the amended C8 in the state reached after a
pointer-down. -/
theorem pointerUp_scan_no_drain_witness :
    (step (run c8Init [c8Down]) .pointerUp).paintQueue
        = (run c8Init [c8Down]).paintQueue
    ∧ (step (run c8Init [c8Down]) .pointerUp).overlayData
        = (run c8Init [c8Down]).overlayData
    ∧ (step (run c8Init [c8Down]) .pointerUp).isRevealed =
        (testRevealed (run c8Init [c8Down]).revealThreshold
          (run c8Init [c8Down]).overlayW (run c8Init [c8Down]).overlayH
          (run c8Init [c8Down]).overlayData
          ⟨(run c8Init [c8Down]).isRevealed,
           (run c8Init [c8Down]).callbackCount⟩).isRevealed
    ∧ (step (run c8Init [c8Down]) .pointerUp).callbackCount =
        (testRevealed (run c8Init [c8Down]).revealThreshold
          (run c8Init [c8Down]).overlayW (run c8Init [c8Down]).overlayH
          (run c8Init [c8Down]).overlayData
          ⟨(run c8Init [c8Down]).isRevealed,
           (run c8Init [c8Down]).callbackCount⟩).callbackCount :=
  pointerUp_scan_no_drain (run c8Init [c8Down]) rfl

/-- C9: a NaN threshold (a non-numeric fifth argument coerced with
`*1`) passes the range validation — both comparisons with 0 and 100
are false on NaN — and is stored as the threshold; afterwards the
reveal comparison `erasedFraction >= NaN` is false on every scan, so
`testRevealed` never changes the state and the callback never fires. -/
theorem nan_threshold_never_fires :
    construct true true true .nan = .ok ⟨.nan⟩
    ∧ ∀ (w h : ℕ) (data : List ℕ) (s : RevealSt),
        testRevealed .nan w h data s = s := by
  refine ⟨rfl, ?_⟩
  intro w h data s
  unfold testRevealed
  have hge : ∀ x : JSNum, jsGe x .nan = false := by
    intro x
    cases x <;> rfl
  rw [hge]
  simp

/-- C10: a pointer-move while no pointer is down is a complete no-op:
the machine state — paint queue, `lastPoint`, `pointerOrigin`,
`offsetOrigin`, scale, overlay, reveal state — is returned unchanged
and no point is enqueued. -/
theorem pointerMove_no_pointer_noop (s : MachineState) (raw : PointQ)
    (h : s.isPointerDown = false) : step s (.pointerMove raw) = s := by
  simp [step, h]

/-- Witness for C10 at the freshly initialised widget. -/
theorem pointerMove_no_pointer_noop_witness :
    step c8Init (.pointerMove ⟨3, 4⟩) = c8Init :=
  pointerMove_no_pointer_noop c8Init ⟨3, 4⟩ rfl
